import Mathlib

/-!
Verification of the dsm repository's two glue files.

The repository consists of src/lemon/main.c (a stdin accumulator that grows a
byte buffer geometrically, null-terminates it, hands it to the external
routine parse_to_string, prints the result and frees it) and
src/lemon/grammar_stubs.c (an OCaml binding shim around the same external
routine).  Bytes are modelled as natural numbers, the input stream as the
list of bytes read before EOF, and heap allocations as identifiers tracked
by an explicit heap model.  The external parser is a parameter everywhere:
it receives the C-string contents of a null-terminated buffer and returns
the bytes of the freshly allocated result string.
-/

namespace DSM

/-- Initial buffer capacity, from main.c line 27: size_t capacity = 1024. -/
def INITIAL_CAPACITY : Nat := 1024

/-- State of the accumulation loop of main.c lines 27-49, heap effects
ignored: current capacity, current size, and the bytes written so far
(buffer cells 0..size-1). -/
structure Accum where
  capacity : Nat
  size : Nat
  buffer : List Nat
deriving Repr, DecidableEq

/-- State before the loop (main.c lines 27-29). -/
def accumInit : Accum :=
  { capacity := INITIAL_CAPACITY, size := 0, buffer := [] }

/-- One iteration of the while loop (main.c lines 37-49) for byte c:
if size + 1 >= capacity the capacity is doubled (realloc preserves the
contents), then the byte is written at index size and size is incremented. -/
def accumStep (st : Accum) (c : Nat) : Accum :=
  { capacity := if st.size + 1 ≥ st.capacity then st.capacity * 2 else st.capacity,
    size := st.size + 1,
    buffer := st.buffer ++ [c] }

/-- The whole loop: fold accumStep over the bytes read from the stream. -/
def accumulate (input : List Nat) : Accum :=
  List.foldl accumStep accumInit input

/-- Finalization (main.c line 51): buffer[size] = 0.  Since buffer holds
exactly size bytes this writes one terminating marker after the last read
byte; size itself is not changed, so the logical content is buffer ++ [0]. -/
def finalize (st : Accum) : List Nat :=
  st.buffer ++ [0]

/-- Loop invariant used for C2 and C4: one cell of headroom is always
reserved, the capacity is a power-of-two multiple of the initial capacity,
and the bytes written so far are exactly size many. -/
def AccInv (st : Accum) : Prop :=
  st.size + 1 ≤ st.capacity ∧
  (∃ k, st.capacity = INITIAL_CAPACITY * 2 ^ k) ∧
  st.buffer.length = st.size

/-- Heap of C allocations, by identifier: next is the next fresh identifier,
live the identifiers currently allocated and not yet freed, freeLog the
identifiers passed to free, in order. -/
structure Heap where
  next : Nat
  live : List Nat
  freeLog : List Nat
deriving Repr, DecidableEq

/-- The heap at process start: nothing allocated, nothing freed. -/
def Heap.empty : Heap :=
  { next := 0, live := [], freeLog := [] }

/-- A successful malloc: returns a fresh identifier and adds it to the live
set. -/
def Heap.alloc (h : Heap) : Nat × Heap :=
  (h.next, { next := h.next + 1, live := h.live ++ [h.next], freeLog := h.freeLog })

/-- free(p): the identifier leaves the live set and is logged. -/
def Heap.free (h : Heap) (id : Nat) : Heap :=
  { next := h.next, live := h.live.filter (fun j => j ≠ id), freeLog := h.freeLog ++ [id] }

/-- Exit status of the process. -/
inductive ExitStatus where
  | success
  | failure
deriving Repr, DecidableEq

/-- Numeric exit code: EXIT_SUCCESS is 0, EXIT_FAILURE is nonzero (1). -/
def ExitStatus.code : ExitStatus → Nat
  | ExitStatus.success => 0
  | ExitStatus.failure => 1

/-- State of the accumulation loop of main.c with the heap tracked: the
capacity, size and written bytes as in Accum, plus the identifier of the
current buffer allocation and the heap. -/
structure LoopSt where
  capacity : Nat
  size : Nat
  contents : List Nat
  bufId : Nat
  heap : Heap
deriving Repr, DecidableEq

/-- One iteration of the while loop (main.c lines 37-49) with allocation
outcomes driven by the oracle allocOk, indexed by allocation sequence
number (the heap's next identifier).  If size + 1 >= capacity the buffer is
reallocated to double capacity: on success the old allocation is replaced
by a fresh one holding the same contents; on failure the code frees the
still-valid original buffer (main.c line 42) and the process exits, which
the model reports as an error carrying the heap at exit. -/
def cliStep (allocOk : Nat → Bool) (st : LoopSt) (c : Nat) : Except Heap LoopSt :=
  if st.size + 1 ≥ st.capacity then
    if allocOk st.heap.next then
      Except.ok
        { capacity := st.capacity * 2, size := st.size + 1, contents := st.contents ++ [c],
          bufId := ((st.heap.free st.bufId).alloc).1,
          heap := ((st.heap.free st.bufId).alloc).2 }
    else
      Except.error (st.heap.free st.bufId)
  else
    Except.ok
      { capacity := st.capacity, size := st.size + 1, contents := st.contents ++ [c],
        bufId := st.bufId, heap := st.heap }

/-- The while loop of main.c lines 37-49 over the remaining input bytes. -/
def cliLoop (allocOk : Nat → Bool) : LoopSt → List Nat → Except Heap LoopSt
  | st, [] => Except.ok st
  | st, c :: rest =>
    match cliStep allocOk st c with
    | Except.error hp => Except.error hp
    | Except.ok st2 => cliLoop allocOk st2 rest

/-- Reading a null-terminated buffer as a C string: the bytes before the
first null. -/
def cstring (buf : List Nat) : List Nat :=
  buf.takeWhile (fun b => b ≠ 0)

/-- The bytes of the literal printf prefix of main.c line 55, RESULT: and a
newline. -/
def RESULT_HEADER : List Nat :=
  [82, 69, 83, 85, 76, 84, 58, 10]

/-- Bytes of an ASCII string, for concrete test inputs. -/
def strBytes (s : String) : List Nat :=
  s.data.map Char.toNat

/-- Observable outcome of one run of main (main.c lines 25-58): exit
status, bytes written to standard output, whether a diagnostic was written
to the error stream (perror), whether the external parser was called, the
final heap, and the identifiers of the input-buffer allocation and of the
parser-result allocation when the run reaches them. -/
structure CLIOutcome where
  exit : ExitStatus
  stdout : List Nat
  diagnostic : Bool
  parserCalled : Bool
  heap : Heap
  bufId : Option Nat
  resId : Option Nat
deriving Repr, DecidableEq

/-- The whole of main (main.c lines 25-58).  The initial malloc is
allocation 0; if it fails, perror and exit(EXIT_FAILURE) (lines 30-33).
Then the loop runs; a failed reallocation frees the buffer, perrors and
exits (lines 40-45).  Otherwise buffer[size] = 0 (line 51), the external
parser is called once on the buffer (line 54) and allocates the result
string, the result is printed after the RESULT: header (line 55), the
result is freed (line 56) and the process returns EXIT_SUCCESS (line 57).
The input buffer itself is not freed on this path. -/
def cliMain (allocOk : Nat → Bool) (parse : List Nat → List Nat) (input : List Nat) :
    CLIOutcome :=
  if allocOk Heap.empty.next then
    match cliLoop allocOk
        { capacity := INITIAL_CAPACITY, size := 0, contents := [],
          bufId := (Heap.empty.alloc).1, heap := (Heap.empty.alloc).2 } input with
    | Except.error hp =>
        { exit := ExitStatus.failure, stdout := [], diagnostic := true,
          parserCalled := false, heap := hp, bufId := none, resId := none }
    | Except.ok st =>
        { exit := ExitStatus.success,
          stdout := RESULT_HEADER ++ parse (cstring (st.contents ++ [0])) ++ [10],
          diagnostic := false, parserCalled := true,
          heap := ((st.heap.alloc).2).free ((st.heap.alloc).1),
          bufId := some st.bufId, resId := some ((st.heap.alloc).1) }
  else
    { exit := ExitStatus.failure, stdout := [], diagnostic := true,
      parserCalled := false, heap := Heap.empty, bufId := none, resId := none }

/-- Heap invariant of the loop: the one live allocation is the current
buffer, and its identifier is in the past of the allocation counter. -/
def HeapInv (st : LoopSt) : Prop :=
  st.heap.live = [st.bufId] ∧ st.bufId < st.heap.next

/-- Observable outcome of one call of the binding shim: the returned
managed text value, the heap after the call, and the identifier of the
parser-result allocation made during the call. -/
structure ShimOutcome where
  result : List Nat
  heap : Heap
  resId : Nat
deriving Repr, DecidableEq

/-- The binding shim ocaml_parse_to_string (grammar_stubs.c lines 10-17):
String_val takes a read-only view of the caller's managed text (no heap
allocation), parse_to_string is called on it and allocates the result
string, caml_copy_string copies the result's bytes into a managed value
(not a C heap allocation in this model), free releases the parser's
result, and the managed copy is returned. -/
def ocaml_parse_to_string (parse : List Nat → List Nat) (h : Heap) (v_input : List Nat) :
    ShimOutcome :=
  { result := parse v_input,
    heap := (((h.alloc).2).free ((h.alloc).1)),
    resId := (h.alloc).1 }

theorem accumInit_inv : AccInv accumInit := by
  refine ⟨by simp [accumInit, INITIAL_CAPACITY], ⟨0, by simp [accumInit]⟩, by simp [accumInit]⟩

theorem accumStep_inv (st : Accum) (c : Nat) (h : AccInv st) : AccInv (accumStep st c) := by
  obtain ⟨hle, ⟨k, hk⟩, hlen⟩ := h
  have hpos : 0 < st.capacity := by
    rw [hk, INITIAL_CAPACITY]; positivity
  have hcap : (accumStep st c).capacity =
      if st.size + 1 ≥ st.capacity then st.capacity * 2 else st.capacity := rfl
  have hsize : (accumStep st c).size = st.size + 1 := rfl
  have hbuf : (accumStep st c).buffer = st.buffer ++ [c] := rfl
  by_cases hcond : st.size + 1 ≥ st.capacity
  · rw [if_pos hcond] at hcap
    refine ⟨?_, ⟨k + 1, ?_⟩, ?_⟩
    · rw [hcap, hsize]; omega
    · rw [hcap, hk]; ring
    · rw [hbuf, hsize]; simp [hlen]
  · rw [if_neg hcond] at hcap
    refine ⟨?_, ⟨k, ?_⟩, ?_⟩
    · rw [hcap, hsize]; omega
    · rw [hcap, hk]
    · rw [hbuf, hsize]; simp [hlen]

theorem foldl_accumStep_inv (l : List Nat) (st : Accum) (h : AccInv st) :
    AccInv (List.foldl accumStep st l) := by
  induction l generalizing st with
  | nil => exact h
  | cons c rest ih => exact ih (accumStep st c) (accumStep_inv st c h)

theorem accumulate_inv (input : List Nat) : AccInv (accumulate input) :=
  foldl_accumStep_inv input accumInit accumInit_inv

theorem foldl_accumStep_buffer (l : List Nat) (st : Accum) :
    (List.foldl accumStep st l).buffer = st.buffer ++ l := by
  induction l generalizing st with
  | nil => simp
  | cons c rest ih =>
    rw [List.foldl_cons, ih (accumStep st c)]
    simp [accumStep]

theorem accumulate_buffer (input : List Nat) : (accumulate input).buffer = input := by
  simpa [accumInit] using foldl_accumStep_buffer input accumInit

theorem foldl_accumStep_size (l : List Nat) (st : Accum) :
    (List.foldl accumStep st l).size = st.size + l.length := by
  induction l generalizing st with
  | nil => simp
  | cons c rest ih =>
    rw [List.foldl_cons, ih (accumStep st c)]
    simp [accumStep]
    omega

theorem accumulate_size (input : List Nat) : (accumulate input).size = input.length := by
  simpa [accumInit] using foldl_accumStep_size input accumInit

/-- C1: for every input stream of length L the finalized buffer is exactly
the L read bytes followed by one terminating null marker, so its logical
size is L + 1, with no restriction relating L to the initial capacity. -/
theorem accumulated_buffer_terminated (input : List Nat) :
    finalize (accumulate input) = input ++ [0] ∧
    (finalize (accumulate input)).length = input.length + 1 := by
  have hb := accumulate_buffer input
  constructor
  · rw [finalize, hb]
  · rw [finalize, hb]
    simp

/-- C2: after accumulation the capacity is a power-of-two multiple of the
initial capacity 1024 and is at least the size. -/
theorem accumulate_capacity_pow_two (input : List Nat) :
    (∃ k, (accumulate input).capacity = 1024 * 2 ^ k) ∧
    (accumulate input).size ≤ (accumulate input).capacity := by
  obtain ⟨hle, ⟨k, hk⟩, _⟩ := accumulate_inv input
  exact ⟨⟨k, by simpa [INITIAL_CAPACITY] using hk⟩, by omega⟩

/-- C4: after any prefix p of the input (hence at every point of the loop)
the invariant capacity ≥ size + 1 holds, and the size after a prefix never
exceeds the size after any extension of it, so size is monotonically
non-decreasing until finalization. -/
theorem accumulate_headroom_and_monotone (p s : List Nat) :
    (accumulate p).size + 1 ≤ (accumulate p).capacity ∧
    (accumulate p).size ≤ (accumulate (p ++ s)).size := by
  obtain ⟨hle, _, _⟩ := accumulate_inv p
  refine ⟨hle, ?_⟩
  rw [accumulate_size, accumulate_size, List.length_append]
  omega

theorem cliStep_ok_of_all (allocOk : Nat → Bool) (hall : ∀ n, allocOk n = true)
    (st : LoopSt) (c : Nat) :
    ∃ st2, cliStep allocOk st c = Except.ok st2 := by
  unfold cliStep
  by_cases hc : st.size + 1 ≥ st.capacity
  · rw [if_pos hc, if_pos (hall st.heap.next)]
    exact ⟨_, rfl⟩
  · rw [if_neg hc]
    exact ⟨_, rfl⟩

theorem cliLoop_ok_of_all (allocOk : Nat → Bool) (hall : ∀ n, allocOk n = true)
    (input : List Nat) (st : LoopSt) :
    ∃ st2, cliLoop allocOk st input = Except.ok st2 := by
  induction input generalizing st with
  | nil => exact ⟨st, rfl⟩
  | cons c rest ih =>
    obtain ⟨st1, h1⟩ := cliStep_ok_of_all allocOk hall st c
    obtain ⟨st2, h2⟩ := ih st1
    refine ⟨st2, ?_⟩
    simp only [cliLoop]
    rw [h1]
    exact h2

theorem cliStep_heapInv (allocOk : Nat → Bool) (st : LoopSt) (c : Nat) (h : HeapInv st) :
    (∀ st2, cliStep allocOk st c = Except.ok st2 → HeapInv st2) ∧
    (∀ hp, cliStep allocOk st c = Except.error hp → hp.live = []) := by
  obtain ⟨hlive, hlt⟩ := h
  unfold cliStep
  by_cases hc : st.size + 1 ≥ st.capacity
  · rw [if_pos hc]
    by_cases ha : allocOk st.heap.next = true
    · rw [if_pos ha]
      constructor
      · intro st2 he
        have hst : st2 =
            { capacity := st.capacity * 2, size := st.size + 1, contents := st.contents ++ [c],
              bufId := ((st.heap.free st.bufId).alloc).1,
              heap := ((st.heap.free st.bufId).alloc).2 } := by
          cases he
          rfl
        subst hst
        constructor
        · simp [Heap.alloc, Heap.free, hlive]
        · simp [Heap.alloc, Heap.free]
      · intro hp he
        simp at he
    · rw [if_neg ha]
      constructor
      · intro st2 he
        simp at he
      · intro hp he
        have hhp : hp = st.heap.free st.bufId := by
          cases he
          rfl
        subst hhp
        simp [Heap.free, hlive]
  · rw [if_neg hc]
    constructor
    · intro st2 he
      have hst : st2 =
          { capacity := st.capacity, size := st.size + 1, contents := st.contents ++ [c],
            bufId := st.bufId, heap := st.heap } := by
        cases he
        rfl
      subst hst
      exact ⟨hlive, hlt⟩
    · intro hp he
      simp at he

theorem cliLoop_heapInv (allocOk : Nat → Bool) (input : List Nat) (st : LoopSt)
    (h : HeapInv st) :
    (∀ st2, cliLoop allocOk st input = Except.ok st2 → HeapInv st2) ∧
    (∀ hp, cliLoop allocOk st input = Except.error hp → hp.live = []) := by
  induction input generalizing st with
  | nil =>
    constructor
    · intro st2 he
      have hst : st2 = st := by
        cases he
        rfl
      subst hst
      exact h
    · intro hp he
      simp [cliLoop] at he
  | cons c rest ih =>
    cases hstep : cliStep allocOk st c with
    | error hp0 =>
      constructor
      · intro st2 he
        simp only [cliLoop] at he
        rw [hstep] at he
        simp at he
      · intro hp he
        simp only [cliLoop] at he
        rw [hstep] at he
        injection he with hh
        rw [← hh]
        exact (cliStep_heapInv allocOk st c h).2 hp0 hstep
    | ok st1 =>
      have h1 : HeapInv st1 := (cliStep_heapInv allocOk st c h).1 st1 hstep
      constructor
      · intro st2 he
        simp only [cliLoop] at he
        rw [hstep] at he
        exact (ih st1 h1).1 st2 he
      · intro hp he
        simp only [cliLoop] at he
        rw [hstep] at he
        exact (ih st1 h1).2 hp he

theorem cliInit_heapInv :
    HeapInv { capacity := INITIAL_CAPACITY, size := 0, contents := [],
              bufId := (Heap.empty.alloc).1, heap := (Heap.empty.alloc).2 } := by
  exact ⟨rfl, by decide⟩

/-- C3: with a stub parser echoing its input, the CLI on input abc writes
exactly RESULT:, a newline, abc and a newline to standard output, and on
empty input writes exactly RESULT: followed by two newlines. -/
theorem cli_echo_stdout :
    (cliMain (fun _ => true) (fun s => s) (strBytes "abc")).stdout =
      strBytes "RESULT:\nabc\n" ∧
    (cliMain (fun _ => true) (fun s => s) []).stdout = strBytes "RESULT:\n\n" := by
  constructor <;> rfl

/-- C5: when every allocation succeeds the process completes normally with
exit code 0; when the run exits with a nonzero code (initial malloc failed
or a reallocation failed) a diagnostic was written and the parser was never
called. -/
theorem cli_alloc_failure_policy (allocOk : Nat → Bool) (parse : List Nat → List Nat)
    (input : List Nat) :
    ((∀ n, allocOk n = true) → (cliMain allocOk parse input).exit.code = 0) ∧
    ((cliMain allocOk parse input).exit.code ≠ 0 →
      (cliMain allocOk parse input).diagnostic = true ∧
      (cliMain allocOk parse input).parserCalled = false) := by
  constructor
  · intro hall
    obtain ⟨st2, h2⟩ := cliLoop_ok_of_all allocOk hall input
      { capacity := INITIAL_CAPACITY, size := 0, contents := [],
        bufId := (Heap.empty.alloc).1, heap := (Heap.empty.alloc).2 }
    unfold cliMain
    rw [if_pos (hall Heap.empty.next), h2]
    rfl
  · intro hne
    by_cases h0 : allocOk Heap.empty.next = true
    · cases hloop : cliLoop allocOk
          { capacity := INITIAL_CAPACITY, size := 0, contents := [],
            bufId := (Heap.empty.alloc).1, heap := (Heap.empty.alloc).2 } input with
      | error hp =>
        constructor
        · unfold cliMain
          rw [if_pos h0, hloop]
        · unfold cliMain
          rw [if_pos h0, hloop]
      | ok st =>
        exfalso
        apply hne
        unfold cliMain
        rw [if_pos h0, hloop]
        rfl
    · constructor
      · unfold cliMain
        rw [if_neg h0]
      · unfold cliMain
        rw [if_neg h0]

/-- C5 witness: with an oracle on which every allocation succeeds the exit
code on input abc is 0, and with an oracle on which the initial allocation
fails the run reports a diagnostic and never calls the parser. -/
theorem cli_alloc_failure_policy_witness :
    (cliMain (fun _ => true) (fun s => s) (strBytes "abc")).exit.code = 0 ∧
    ((cliMain (fun _ => false) (fun s => s) (strBytes "abc")).diagnostic = true ∧
      (cliMain (fun _ => false) (fun s => s) (strBytes "abc")).parserCalled = false) :=
  ⟨(cli_alloc_failure_policy (fun _ => true) (fun s => s) (strBytes "abc")).1 (fun _ => rfl),
   (cli_alloc_failure_policy (fun _ => false) (fun s => s) (strBytes "abc")).2 (by decide)⟩

/-- C10: any run that exits with a nonzero code leaves no live allocation:
on initial-malloc failure nothing was ever allocated, and on reallocation
failure the code frees the still-valid original buffer before perror and
exit, so the error path leaves no live buffer allocation behind. -/
theorem cli_failure_leaves_no_allocation (allocOk : Nat → Bool)
    (parse : List Nat → List Nat) (input : List Nat)
    (h : (cliMain allocOk parse input).exit.code ≠ 0) :
    (cliMain allocOk parse input).heap.live = [] := by
  by_cases h0 : allocOk Heap.empty.next = true
  · cases hloop : cliLoop allocOk
        { capacity := INITIAL_CAPACITY, size := 0, contents := [],
          bufId := (Heap.empty.alloc).1, heap := (Heap.empty.alloc).2 } input with
    | error hp =>
      have hlive : hp.live = [] :=
        (cliLoop_heapInv allocOk input _ cliInit_heapInv).2 hp hloop
      unfold cliMain
      rw [if_pos h0, hloop]
      exact hlive
    | ok st =>
      exfalso
      apply h
      unfold cliMain
      rw [if_pos h0, hloop]
      rfl
  · unfold cliMain
    rw [if_neg h0]
    rfl

/-- C10 witness: with an oracle on which the initial allocation fails, the
exit code is nonzero and the final heap has no live allocation. -/
theorem cli_failure_leaves_no_allocation_witness :
    (cliMain (fun _ => false) (fun s => s) []).exit.code ≠ 0 ∧
    (cliMain (fun _ => false) (fun s => s) []).heap.live = [] :=
  ⟨by decide, cli_failure_leaves_no_allocation (fun _ => false) (fun s => s) [] (by decide)⟩

/-- C8 counterexample: on input abc with an echo parser and no allocation
failure, the input-buffer allocation (identifier 0) is still live when main
returns, so the accumulated input buffer is never released in the CLI
path; the free on main.c line 56 releases the parser result instead. -/
theorem cli_buffer_never_released :
    (cliMain (fun _ => true) (fun s => s) (strBytes "abc")).bufId = some 0 ∧
    0 ∈ (cliMain (fun _ => true) (fun s => s) (strBytes "abc")).heap.live := by
  decide

/-- C8 amended: on every successful CLI run, the parser-result allocation
is released after the parse (it is in the free log and no longer live),
while the accumulated input buffer is not released and is the one
allocation still live when main returns; it is reclaimed only by process
termination. -/
theorem cli_result_released_buffer_retained (allocOk : Nat → Bool)
    (parse : List Nat → List Nat) (input : List Nat)
    (h : (cliMain allocOk parse input).exit = ExitStatus.success) :
    ∃ b r, (cliMain allocOk parse input).bufId = some b ∧
      (cliMain allocOk parse input).resId = some r ∧
      (cliMain allocOk parse input).heap.live = [b] ∧
      r ∉ (cliMain allocOk parse input).heap.live ∧
      r ∈ (cliMain allocOk parse input).heap.freeLog := by
  by_cases h0 : allocOk Heap.empty.next = true
  · cases hloop : cliLoop allocOk
        { capacity := INITIAL_CAPACITY, size := 0, contents := [],
          bufId := (Heap.empty.alloc).1, heap := (Heap.empty.alloc).2 } input with
    | error hp =>
      exfalso
      have hex : (cliMain allocOk parse input).exit = ExitStatus.failure := by
        unfold cliMain
        rw [if_pos h0, hloop]
      rw [hex] at h
      exact ExitStatus.noConfusion h
    | ok st =>
      obtain ⟨hlive, hlt⟩ := (cliLoop_heapInv allocOk input _ cliInit_heapInv).1 st hloop
      have hbuf : (cliMain allocOk parse input).bufId = some st.bufId := by
        unfold cliMain
        rw [if_pos h0, hloop]
      have hres : (cliMain allocOk parse input).resId = some st.heap.next := by
        unfold cliMain
        rw [if_pos h0, hloop]
        rfl
      have hheap : (cliMain allocOk parse input).heap =
          ((st.heap.alloc).2).free ((st.heap.alloc).1) := by
        unfold cliMain
        rw [if_pos h0, hloop]
      have hne : st.bufId ≠ st.heap.next := Nat.ne_of_lt hlt
      refine ⟨st.bufId, st.heap.next, hbuf, hres, ?_, ?_, ?_⟩
      · rw [hheap]
        simp [Heap.alloc, Heap.free, hlive, hne]
      · rw [hheap]
        simp [Heap.alloc, Heap.free, hlive]
      · rw [hheap]
        simp [Heap.alloc, Heap.free]
  · exfalso
    have hex : (cliMain allocOk parse input).exit = ExitStatus.failure := by
      unfold cliMain
      rw [if_neg h0]
    rw [hex] at h
    exact ExitStatus.noConfusion h

/-- C8 amended witness: concrete successful run on input abc with an echo
parser and no allocation failure. -/
theorem cli_result_released_buffer_retained_witness :
    ∃ b r, (cliMain (fun _ => true) (fun s => s) (strBytes "abc")).bufId = some b ∧
      (cliMain (fun _ => true) (fun s => s) (strBytes "abc")).resId = some r ∧
      (cliMain (fun _ => true) (fun s => s) (strBytes "abc")).heap.live = [b] ∧
      r ∉ (cliMain (fun _ => true) (fun s => s) (strBytes "abc")).heap.live ∧
      r ∈ (cliMain (fun _ => true) (fun s => s) (strBytes "abc")).heap.freeLog :=
  cli_result_released_buffer_retained (fun _ => true) (fun s => s) (strBytes "abc")
    (by decide)

/-- C9: neither main nor the binding shim inspects the value returned by
the external parser.  Whatever bytes res the parser returns, a run of main
that reaches the parser call prints exactly the header, res and a newline,
and the shim returns exactly res as the managed copy and performs its
single free of the parser's allocation, unconditionally.  The wrappers are
therefore well defined only under the precondition that the parser returns
a usable, non-null, null-terminated string: a null result would be
consumed identically, which in the C source is undefined behavior. -/
theorem parser_result_consumed_unconditionally (allocOk : Nat → Bool) (input : List Nat)
    (res : List Nat) (h : Heap) (v : List Nat) :
    ((cliMain allocOk (fun _ => res) input).parserCalled = true →
      (cliMain allocOk (fun _ => res) input).stdout = RESULT_HEADER ++ res ++ [10]) ∧
    (ocaml_parse_to_string (fun _ => res) h v).result = res ∧
    (ocaml_parse_to_string (fun _ => res) h v).heap.freeLog = h.freeLog ++ [h.next] := by
  refine ⟨?_, rfl, rfl⟩
  intro hpc
  by_cases h0 : allocOk Heap.empty.next = true
  · cases hloop : cliLoop allocOk
        { capacity := INITIAL_CAPACITY, size := 0, contents := [],
          bufId := (Heap.empty.alloc).1, heap := (Heap.empty.alloc).2 } input with
    | error hp =>
      exfalso
      have hnc : (cliMain allocOk (fun _ => res) input).parserCalled = false := by
        unfold cliMain
        rw [if_pos h0, hloop]
      rw [hnc] at hpc
      exact Bool.noConfusion hpc
    | ok st =>
      unfold cliMain
      rw [if_pos h0, hloop]
  · exfalso
    have hnc : (cliMain allocOk (fun _ => res) input).parserCalled = false := by
      unfold cliMain
      rw [if_neg h0]
    rw [hnc] at hpc
    exact Bool.noConfusion hpc

/-- C9 witness: a stub parser that returns zz regardless of its input, on
the concrete input q and the empty heap. -/
theorem parser_result_consumed_unconditionally_witness :
    (cliMain (fun _ => true) (fun _ => strBytes "zz") (strBytes "q")).stdout =
      RESULT_HEADER ++ strBytes "zz" ++ [10] ∧
    (ocaml_parse_to_string (fun _ => strBytes "zz") Heap.empty (strBytes "q")).result =
      strBytes "zz" ∧
    (ocaml_parse_to_string (fun _ => strBytes "zz") Heap.empty (strBytes "q")).heap.freeLog =
      Heap.empty.freeLog ++ [Heap.empty.next] := by
  have hth := parser_result_consumed_unconditionally (fun _ => true) (strBytes "q")
    (strBytes "zz") Heap.empty (strBytes "q")
  exact ⟨hth.1 (by decide), hth.2.1, hth.2.2⟩

/-- C6: with an echo stub the shim applied to hello returns a managed text
value equal to hello, and over the call the number of allocations (growth
of the allocation counter) equals the number of releases (growth of the
free log), with no residual live allocation. -/
theorem shim_echo_hello :
    (ocaml_parse_to_string (fun s => s) Heap.empty (strBytes "hello")).result =
      strBytes "hello" ∧
    (ocaml_parse_to_string (fun s => s) Heap.empty (strBytes "hello")).heap.next -
        Heap.empty.next =
      (ocaml_parse_to_string (fun s => s) Heap.empty
          (strBytes "hello")).heap.freeLog.length -
        Heap.empty.freeLog.length ∧
    (ocaml_parse_to_string (fun s => s) Heap.empty (strBytes "hello")).heap.live =
      Heap.empty.live := by
  decide

/-- C7: each shim call performs exactly one release, and it releases
precisely the allocation the external parser made during that call; with
the heap well-formed (live identifiers are in the past of the allocation
counter) that identifier is fresh, so the shim releases nothing that
existed before the call, and in particular never the caller-provided input
text, which is a managed value rather than a C allocation in this model. -/
theorem shim_single_release (parse : List Nat → List Nat) (h : Heap) (v : List Nat)
    (hwf : ∀ i ∈ h.live, i < h.next) :
    (ocaml_parse_to_string parse h v).heap.freeLog = h.freeLog ++ [h.next] ∧
    (ocaml_parse_to_string parse h v).resId = h.next ∧
    h.next ∉ h.live := by
  refine ⟨rfl, rfl, fun hmem => ?_⟩
  exact absurd (hwf h.next hmem) (Nat.lt_irrefl h.next)

/-- C7 witness: echo parser, input hi, empty heap. -/
theorem shim_single_release_witness :
    (ocaml_parse_to_string (fun s => s) Heap.empty (strBytes "hi")).heap.freeLog =
      Heap.empty.freeLog ++ [Heap.empty.next] ∧
    (ocaml_parse_to_string (fun s => s) Heap.empty (strBytes "hi")).resId =
      Heap.empty.next ∧
    Heap.empty.next ∉ Heap.empty.live :=
  shim_single_release (fun s => s) Heap.empty (strBytes "hi") (by simp [Heap.empty])

end DSM
